import Mathlib

/-!
Shallow embedding of the extension/helper composition layer of
`src/frontend/src/utilities/EditorUtils.ts`.

JavaScript `undefined` values are modelled with `Option` (`none` = `undefined`);
a JS expression that can throw on well-typed input is modelled with
`Except JsError`.  Strings are modelled through their character lists
(`String.split('.')` becomes `splitOnDot`, `toLowerCase` becomes
`Char.toLower`, an ASCII model of the JS behaviour).
-/

/-- Model of a thrown JS exception (the only one reachable in this layer is a
`TypeError` from calling a member of `undefined`). -/
inductive JsError : Type
  | typeError
deriving DecidableEq

/-- Model of the source type `Arrayable<T> = T | T[]`. -/
inductive Arrayable (α : Type) : Type
  | single (a : α)
  | many (l : List α)

/-- Source `inArrayable`: `arrayable.some(item => item === value)` for an
array, `arrayable === value` otherwise. -/
def inArrayable {α : Type} [DecidableEq α] : Arrayable α → α → Bool
  | .single a, value => a = value
  | .many l, value => l.any (fun item => item = value)

/-- Source `arrayify`: wraps a lone item into a one-element array. -/
def arrayify {α : Type} : Arrayable α → List α
  | .single a => [a]
  | .many l => l

/-- JS truthiness of an `Arrayable<string>` value: the empty string is falsy,
every array (even empty) is truthy. -/
def truthyA : Arrayable String → Bool
  | .single s => !(s = "")
  | .many _ => true

/-- JS truthiness of a possibly-`undefined` `Arrayable<string>` value. -/
def truthyOA : Option (Arrayable String) → Bool
  | none => false
  | some a => truthyA a

/-- Model of `String.prototype.split('.')` on the character list of the
string: `"" ↦ [""]`, `"a.b" ↦ ["a","b"]`, `"a." ↦ ["a",""]`. -/
def splitOnDot : List Char → List (List Char)
  | [] => [[]]
  | c :: rest =>
    if c = '.' then [] :: splitOnDot rest
    else
      match splitOnDot rest with
      | [] => [[c]]
      | s :: ss => (c :: s) :: ss

/-- The longest suffix of a character list containing no `'.'` (the text after
the last dot when a dot is present, the whole list otherwise).  Used to state
what the last component produced by `splitOnDot` is. -/
def lastSeg (l : List Char) : List Char :=
  (l.reverse.takeWhile (fun c => !(c = '.'))).reverse

/-- Source `getExtension`: `undefined` for the empty filename, otherwise the
last `'.'`-separated component of the filename, lower-cased. -/
def getExtension (filename : String) : Option String :=
  if filename = "" then none
  else some (String.mk (((splitOnDot filename.toList).getLast?.getD []).map Char.toLower))

/-- Positions as used by the CodeMirror callbacks (`{line, ch}`). -/
structure Position where
  line : Nat
  ch : Nat
deriving DecidableEq

/-- Severity of a lint finding. -/
inductive Severity : Type
  | error
  | warning
deriving DecidableEq

/-- One lint finding, the element shape returned by a lint helper callback.
The source fields `from`/`to` are renamed `fromPos`/`toPos` because `from` is
a reserved word in Lean. -/
structure LintFinding where
  message : String
  severity : Option Severity
  fromPos : Position
  toPos : Position
deriving DecidableEq

/-- The result shape returned by a hint helper callback.  The source fields
`from`/`to` are renamed `fromPos`/`toPos` as in `LintFinding`. -/
structure HintResult where
  list : List String
  fromPos : Position
  toPos : Position
deriving DecidableEq

/-- Source `LintHelperMerge`:
`returns.filter(ret => ret !== undefined).reduce((a, b) => a.concat(b), [])`. -/
def LintHelperMerge (returns : List (Option (List LintFinding))) : List LintFinding :=
  (returns.filterMap id).foldl (fun a b => a ++ b) []

/-- Source `HintHelperMerge`: filters out `undefined`, concatenates the
`list` fields and takes `from`/`to` from `filtered[0]`.  When every entry was
`undefined`, `filtered[0]` is `undefined` and reading `.from` from it throws a
`TypeError`, modelled by `Except.error`. -/
def HintHelperMerge (returns : List (Option HintResult)) : Except JsError HintResult :=
  let filtered := returns.filterMap id
  match filtered with
  | [] => Except.error JsError.typeError
  | r :: _ =>
    Except.ok
      { list := (filtered.map (fun item => item.list)).foldl (fun a b => a ++ b) []
        fromPos := r.fromPos
        toPos := r.toPos }

/-- Helper kinds (`HelperType` in the source). -/
inductive HelperType : Type
  | lint
  | hint
deriving DecidableEq

/-- A helper declaration.  The callback receives the current filename (read
through the editor handle contained in its arguments) and an abstract payload
`ρ` standing for the remaining arguments, and returns a result of type `σ`. -/
structure Helper (ρ σ : Type) where
  type : HelperType
  fileType : String
  callback : String → ρ → σ

/-- A wrapped helper callback: same arguments, but the result may be the
`undefined` no-result sentinel (modelled `none`). -/
abbrev Wrapped (ρ σ : Type) := String → ρ → Option σ

/-- Source `EditorExtension`: every field optional. -/
structure EditorExtension (ρ σ : Type) where
  fileName : Option (Arrayable String) := none
  extension : Option (Arrayable String) := none
  gutters : Option (Arrayable String) := none
  helpers : Option (Arrayable (Helper ρ σ)) := none
  spellCheck : Option Bool := none

/-- The per-extension applicability test of `appendExtensions`
(lines 257-263): the `fileName` branch is taken whenever `fileName` is not
`undefined`, else the `extension` branch whenever `extension` is not
`undefined`; comparing a declared string with an `undefined` suffix is
`false`. -/
def includeExt {ρ σ : Type} (extension : EditorExtension ρ σ) (filename : String)
    (fileExt : Option String) : Bool :=
  match extension.fileName with
  | some names => inArrayable names filename
  | none =>
    match extension.extension with
    | some exts =>
      match fileExt with
      | some e => inArrayable exts e
      | none => false
    | none => false

/-- The editor options touched by `appendExtensions`. -/
structure EditorOptions where
  gutters : List String
  lint : Bool
  spellcheck : Bool
deriving DecidableEq

/-- The loop body of `appendExtensions`: skip non-included extensions, OR the
`spellCheck` flag when it is set, append the gutters when the `gutters` field
is truthy. -/
def applyExtStep {ρ σ : Type} (filename : String) (fileExt : Option String)
    (acc : List String × Bool) (extension : EditorExtension ρ σ) : List String × Bool :=
  if !(includeExt extension filename fileExt) then acc
  else
    let spellcheck :=
      match extension.spellCheck with
      | some b => acc.2 || b
      | none => acc.2
    let gutters :=
      match extension.gutters with
      | some g => if truthyA g then acc.1 ++ arrayify g else acc.1
      | none => acc.1
    (gutters, spellcheck)

/-- Source `appendExtensions`: folds the loop body over the extension list and
sets the `gutters`, `lint` and `spellcheck` options. -/
def appendExtensions {ρ σ : Type} (editor : EditorOptions)
    (extensions : List (EditorExtension ρ σ)) (filename : String) : EditorOptions :=
  let fileExt := getExtension filename
  let acc := extensions.foldl (applyExtStep filename fileExt) ([], false)
  { editor with gutters := acc.1, lint := true, spellcheck := acc.2 }

/-- The `else if (extension.extension)` branch of `createWrapperFunction`:
present only when the `extension` field is truthy; the produced wrapper reads
the current filename, computes its suffix with `getExtension` and returns the
`undefined` sentinel unless the suffix is one of the declared extensions
(an `undefined` suffix is never contained in a string array). -/
def wrapperExtBranch {ρ σ : Type} (extension : EditorExtension ρ σ)
    (func : String → ρ → σ) : Option (Wrapped ρ σ) :=
  match extension.extension with
  | some ex =>
    if truthyA ex then
      some (fun fileName args =>
        match getExtension fileName with
        | some suffix =>
          if (arrayify ex).contains suffix then some (func fileName args) else none
        | none => none)
    else none
  | none => none

/-- Source `createWrapperFunction` (lines 290-321): `if (extension.fileName)`
is a JS truthiness test, so a `fileName` that is the empty string falls
through to the `extension` branch; when neither branch fires the function
returns `undefined` (modelled `none`). -/
def createWrapperFunction {ρ σ : Type} (extension : EditorExtension ρ σ)
    (func : String → ρ → σ) : Option (Wrapped ρ σ) :=
  match extension.fileName with
  | some fn =>
    if truthyA fn then
      some (fun fileName args =>
        if (arrayify fn).contains fileName then some (func fileName args) else none)
    else wrapperExtBranch extension func
  | none => wrapperExtBranch extension func

/-- One entry of the `groupedhelper` array of `appendHelpers`: a helper kind
together with a `Record<string, ...>` of wrapped callbacks, modelled as an
association list that preserves JS object key insertion order.  The stored
entries are `Option (Wrapped ρ σ)` because `createWrapperFunction` can return
`undefined`, which the source pushes unchecked. -/
structure HelperGroup (ρ σ : Type) where
  type : HelperType
  helpers : List (String × List (Option (Wrapped ρ σ)))

/-- Appending a value under a key of a JS object of arrays: an existing key
keeps its position and gets the value pushed at the end of its array, a new
key is inserted at the end with a one-element array. -/
def assocPush {α : Type} (m : List (String × List α)) (key : String) (v : α) :
    List (String × List α) :=
  match m with
  | [] => [(key, [v])]
  | (k, l) :: rest =>
    if k = key then (k, l ++ [v]) :: rest else (k, l) :: assocPush rest key v

/-- The inner loop body of `appendHelpers`: find (or create at the end) the
group of the helper's kind, then push the wrapped callback under the helper's
`fileType` key. -/
def groupsPush {ρ σ : Type} (st : List (HelperGroup ρ σ)) (t : HelperType)
    (ft : String) (w : Option (Wrapped ρ σ)) : List (HelperGroup ρ σ) :=
  match st with
  | [] => [⟨t, [(ft, [w])]⟩]
  | g :: rest =>
    if g.type = t then ⟨g.type, assocPush g.helpers ft w⟩ :: rest
    else g :: groupsPush rest t ft w

/-- The `(extension, helper)` pairs visited by the two nested loops of
`appendHelpers`, in visit order: extensions with `helpers` equal to
`undefined` are skipped, the rest contribute their arrayified helper list. -/
def declaredHelpers {ρ σ : Type} (extensions : List (EditorExtension ρ σ)) :
    List (EditorExtension ρ σ × Helper ρ σ) :=
  extensions.flatMap (fun extension =>
    match extension.helpers with
    | none => []
    | some hs => (arrayify hs).map (fun h => (extension, h)))

/-- Processing of one `(extension, helper)` pair by `appendHelpers`: wrap the
callback with `createWrapperFunction` and push it under the helper's kind and
`fileType` key. -/
def groupStep {ρ σ : Type} (st : List (HelperGroup ρ σ))
    (eh : EditorExtension ρ σ × Helper ρ σ) : List (HelperGroup ρ σ) :=
  groupsPush st eh.2.type eh.2.fileType (createWrapperFunction eh.1 eh.2.callback)

/-- The grouping phase of `appendHelpers` (lines 287-347): fold the nested
loops over the extension list, wrapping every callback with
`createWrapperFunction`. -/
def appendHelpersGrouping {ρ σ : Type} (extensions : List (EditorExtension ρ σ)) :
    List (HelperGroup ρ σ) :=
  (declaredHelpers extensions).foldl groupStep []

/-- Lookup of the `Record` stored for a kind: first group with that kind,
empty record if none. -/
def lookupGroup {ρ σ : Type} (st : List (HelperGroup ρ σ)) (t : HelperType) :
    List (String × List (Option (Wrapped ρ σ))) :=
  match st with
  | [] => []
  | g :: rest => if g.type = t then g.helpers else lookupGroup rest t

/-- Lookup in the association-list model of a JS object (first matching key,
empty list of callbacks if absent). -/
def assocLookup {α : Type} (m : List (String × List α)) (key : String) : List α :=
  match m with
  | [] => []
  | (k, l) :: rest => if k = key then l else assocLookup rest key

/-- The wrapped-callback sequence registered under a `(kind, fileType)` key. -/
def lookupHelpers {ρ σ : Type} (st : List (HelperGroup ρ σ)) (t : HelperType)
    (ft : String) : List (Option (Wrapped ρ σ)) :=
  assocLookup (lookupGroup st t) ft

/-- `callbacks.map((cb) => cb.apply(this, args))` in the dispatcher installed
by `appendHelpers`: calling `.apply` on an `undefined` entry throws a
`TypeError`; otherwise the results are collected in order. -/
def runWrapped {ρ σ : Type} (callbacks : List (Option (Wrapped ρ σ)))
    (fileName : String) (args : ρ) : Except JsError (List (Option σ)) :=
  match callbacks with
  | [] => Except.ok []
  | none :: _ => Except.error JsError.typeError
  | some cb :: rest =>
    (runWrapped rest fileName args).map (fun tl => cb fileName args :: tl)

/-- The dispatcher registered for one `(kind, fileType)` key: run every stored
wrapped callback on the current arguments, then hand the collected results to
the kind's merger. -/
def dispatcherRun {ρ σ τ : Type} (callbacks : List (Option (Wrapped ρ σ)))
    (merger : List (Option σ) → τ) (fileName : String) (args : ρ) : Except JsError τ :=
  (runWrapped callbacks fileName args).map merger

/-- The Extension Matcher condition as the applicator evaluates it: the
per-extension test of `appendExtensions` with the suffix of the filename. -/
def matcherCond {ρ σ : Type} (extension : EditorExtension ρ σ) (filename : String) : Bool :=
  includeExt extension filename (getExtension filename)

/-- Modelled from the words of claim C3: the file's suffix as the claim
states it, namely the text after the last `'.'` lower-cased, and the empty
string when the filename has no dot. -/
def specSuffixC3 (filename : String) : String :=
  if ('.') ∈ filename.toList then String.mk ((lastSeg filename.toList).map Char.toLower)
  else ""

/-- Modelled from the words of claim C3: match by exact filename when
`fileName` is set, else by comparing the claim's suffix with the declared
extensions, else never. -/
def specMatchC3 {ρ σ : Type} (extension : EditorExtension ρ σ) (filename : String) : Bool :=
  match extension.fileName with
  | some names => inArrayable names filename
  | none =>
    match extension.extension with
    | some exts => inArrayable exts (specSuffixC3 filename)
    | none => false

/-- The amended suffix computation: no suffix for the empty filename,
otherwise the longest dot-free suffix of the name (the text after the last
dot, or the whole name when there is no dot), lower-cased. -/
def amendedSuffix (filename : String) : Option String :=
  if filename = "" then none
  else some (String.mk ((lastSeg filename.toList).map Char.toLower))

/-- The amended matching condition of claim C3: exact filename match when
`fileName` is set, else comparison of the amended suffix (when it exists)
with the declared extensions, else never. -/
def amendedMatchC3 {ρ σ : Type} (extension : EditorExtension ρ σ) (filename : String) : Bool :=
  match extension.fileName with
  | some names => inArrayable names filename
  | none =>
    match extension.extension with
    | some exts =>
      match amendedSuffix filename with
      | some suffix => inArrayable exts suffix
      | none => false
    | none => false

/-- The extension branch of the amended invocation-time guard of claim C7:
fires only when the `extension` field is truthy, and compares the suffix of
the current filename (when it exists) with the declared extensions. -/
def wrapperCondExt (o : Option (Arrayable String)) (filename : String) : Bool :=
  match o with
  | some ex =>
    if truthyA ex then
      match getExtension filename with
      | some suffix => inArrayable ex suffix
      | none => false
    else false
  | none => false

/-- The amended invocation-time guard of claim C7: the wrapper re-evaluates
the extension's matching condition, but treats an empty-string
`fileName`/`extension` field as absent (JS truthiness). -/
def wrapperCond {ρ σ : Type} (extension : EditorExtension ρ σ) (filename : String) : Bool :=
  match extension.fileName with
  | some fn => if truthyA fn then inArrayable fn filename else wrapperCondExt extension.extension filename
  | none => wrapperCondExt extension.extension filename

/-- Modelled from the words of claim C8: the gutter identifiers an extension
declares (its arrayified `gutters` field). -/
def declaredGutters {ρ σ : Type} (extension : EditorExtension ρ σ) : List String :=
  match extension.gutters with
  | some g => arrayify g
  | none => []

/-- Modelled from the words of claim C8: the concatenation, in extension-list
order, of the gutter identifiers declared by the applicable extensions. -/
def gutterConcatClaim {ρ σ : Type} (extensions : List (EditorExtension ρ σ))
    (filename : String) : List String :=
  (extensions.filter (fun e => matcherCond e filename)).flatMap declaredGutters

/-- The amended gutter contribution of one extension: its arrayified
`gutters` field when that field is truthy (a set-but-empty-string `gutters`
field contributes nothing), else nothing. -/
def declaredGuttersAmended {ρ σ : Type} (extension : EditorExtension ρ σ) : List String :=
  match extension.gutters with
  | some g => if truthyA g then arrayify g else []
  | none => []

/-- The amended gutter accumulation of claim C8: concatenation, in
extension-list order, of the amended gutter contributions of the applicable
extensions. -/
def gutterConcatAmended {ρ σ : Type} (extensions : List (EditorExtension ρ σ))
    (filename : String) : List String :=
  (extensions.filter (fun e => matcherCond e filename)).flatMap declaredGuttersAmended

/-- A concrete lint callback used to exercise the registry. -/
def lintCbC1 : String → Unit → List LintFinding := fun _ _ => []

/-- A lint helper owned by a malformed extension. -/
def badHelperC1 : Helper Unit (List LintFinding) :=
  { type := HelperType.lint, fileType := "python", callback := lintCbC1 }

/-- A malformed extension: it declares a helper but sets neither `fileName`
nor `extension`. -/
def badExtC1 : EditorExtension Unit (List LintFinding) :=
  { helpers := some (Arrayable.single badHelperC1) }

/-- The extension of the C3 counterexample: scoped to suffix `makefile`. -/
def extC3 : EditorExtension Unit Unit :=
  { extension := some (Arrayable.single "makefile") }

/-- The one-contributor hint result of the spec's identity example. -/
def hintR1 : HintResult :=
  { list := ["a", "b"], fromPos := ⟨0, 0⟩, toPos := ⟨0, 2⟩ }

/-- A hint result used by the C9 witness. -/
def hintR9 : HintResult :=
  { list := ["x"], fromPos := ⟨1, 2⟩, toPos := ⟨1, 3⟩ }

/-- A well-formed extension scoped to a single exact filename. -/
def extC7w : EditorExtension Unit Nat :=
  { fileName := some (Arrayable.single "notes.txt") }

/-- The raw callback wrapped in the C7 witness. -/
def funcC7 : String → Unit → Nat := fun _ _ => 42

/-- The wrapper `createWrapperFunction` produces for `extC7w`. -/
def wC7 : Wrapped Unit Nat :=
  (createWrapperFunction extC7w funcC7).getD (fun _ _ => none)

/-- The extension of the C7 counterexample: `fileName` set to the empty
string (set but falsy) next to a set `extension`. -/
def extC7c : EditorExtension Unit Nat :=
  { fileName := some (Arrayable.single ""), extension := some (Arrayable.single "py") }

/-- The raw callback wrapped in the C7 counterexample. -/
def funcC7c : String → Unit → Nat := fun _ _ => 7

/-- The wrapper `createWrapperFunction` produces for `extC7c`. -/
def wC7c : Wrapped Unit Nat :=
  (createWrapperFunction extC7c funcC7c).getD (fun _ _ => none)

/-- An extension of the C10 witness setting both `fileName` (truthy) and
`extension`. -/
def extC10w : EditorExtension Unit Nat :=
  { fileName := some (Arrayable.many ["m.py"]), extension := some (Arrayable.single "py") }

/-- The raw callback wrapped in the C10 witness. -/
def funcC10 : String → Unit → Nat := fun _ _ => 5

/-- The wrapper `createWrapperFunction` produces for `extC10w`. -/
def wC10 : Wrapped Unit Nat :=
  (createWrapperFunction extC10w funcC10).getD (fun _ _ => none)

/-- The extension of the C10 counterexample: both fields set, `fileName`
being the empty string. -/
def extC10c : EditorExtension Unit Nat :=
  { fileName := some (Arrayable.single ""), extension := some (Arrayable.single "py") }

/-- The raw callback wrapped in the C10 counterexample. -/
def funcC10c : String → Unit → Nat := fun _ _ => 3

/-- The wrapper `createWrapperFunction` produces for `extC10c`. -/
def wC10c : Wrapped Unit Nat :=
  (createWrapperFunction extC10c funcC10c).getD (fun _ _ => none)

/-- An editor options record in its initial state. -/
def edC8 : EditorOptions := { gutters := [], lint := false, spellcheck := false }

/-- The extension of the C8 counterexample: applicable to `.py` files,
declaring the empty string as its only gutter identifier. -/
def extC8a : EditorExtension Unit Unit :=
  { extension := some (Arrayable.single "py"), gutters := some (Arrayable.single "") }

theorem takeWhileAppendAll {α : Type} (p : α → Bool) (xs ys : List α)
    (h : ∀ x ∈ xs, p x = true) :
    (xs ++ ys).takeWhile p = xs ++ ys.takeWhile p := by
  induction xs with
  | nil => rfl
  | cons x xs ih =>
    have hx : p x = true := h x (by simp)
    simp only [List.cons_append, List.takeWhile_cons, hx, if_true]
    rw [ih (fun y hy => h y (by simp [hy]))]

theorem takeWhileAppendFail {α : Type} (p : α → Bool) (xs ys : List α)
    (h : ∃ x ∈ xs, p x = false) :
    (xs ++ ys).takeWhile p = xs.takeWhile p := by
  induction xs with
  | nil =>
    rcases h with ⟨x, hx, _⟩
    cases hx
  | cons x xs ih =>
    cases hx : p x with
    | true =>
      simp only [List.cons_append, List.takeWhile_cons, hx, if_true]
      rw [ih]
      rcases h with ⟨y, hy, hpy⟩
      rcases List.mem_cons.mp hy with h1 | h2
      · rw [h1] at hpy
        rw [hpy] at hx
        cases hx
      · exact ⟨y, h2, hpy⟩
    | false =>
      simp only [List.cons_append, List.takeWhile_cons, hx]
      rfl

theorem lastSegConsOfMem (c : Char) (rest : List Char) (h : '.' ∈ rest) :
    lastSeg (c :: rest) = lastSeg rest := by
  unfold lastSeg
  rw [show (c :: rest).reverse = rest.reverse ++ [c] by simp]
  rw [takeWhileAppendFail]
  exact ⟨'.', List.mem_reverse.mpr h, by simp⟩

theorem lastSegConsOfNotMem (c : Char) (rest : List Char) (h : '.' ∉ rest) :
    lastSeg (c :: rest) = if c = '.' then rest else c :: rest := by
  unfold lastSeg
  rw [show (c :: rest).reverse = rest.reverse ++ [c] by simp]
  rw [takeWhileAppendAll]
  · by_cases hc : c = '.'
    · subst hc
      simp
    · simp [hc]
  · intro x hx
    have hx' : x ∈ rest := List.mem_reverse.mp hx
    simp only [Bool.not_eq_true']
    simp only [decide_eq_false_iff_not]
    intro he
    exact h (he ▸ hx')

theorem splitOnDotNeNil (l : List Char) : splitOnDot l ≠ [] := by
  cases l with
  | nil => simp [splitOnDot]
  | cons c rest =>
    unfold splitOnDot
    by_cases hc : c = '.'
    · simp [hc]
    · simp only [hc, if_false]
      cases splitOnDot rest <;> simp

theorem splitOnDotOfNotMem (l : List Char) (h : '.' ∉ l) : splitOnDot l = [l] := by
  induction l with
  | nil => rfl
  | cons c rest ih =>
    have hc : ¬ c = '.' := fun e => h (by simp [e])
    have hr : '.' ∉ rest := fun m => h (List.mem_cons_of_mem c m)
    unfold splitOnDot
    rw [if_neg hc, ih hr]

theorem splitOnDotTwoLe (l : List Char) (h : '.' ∈ l) : 2 ≤ (splitOnDot l).length := by
  induction l with
  | nil => cases h
  | cons c rest ih =>
    unfold splitOnDot
    by_cases hc : c = '.'
    · rw [if_pos hc]
      cases hs : splitOnDot rest with
      | nil => exact absurd hs (splitOnDotNeNil rest)
      | cons s ss => simp
    · rw [if_neg hc]
      have hr : '.' ∈ rest := by
        rcases List.mem_cons.mp h with h1 | h2
        · exact absurd h1.symm hc
        · exact h2
      cases hs : splitOnDot rest with
      | nil => exact absurd hs (splitOnDotNeNil rest)
      | cons s ss =>
        have h2 := ih hr
        rw [hs] at h2
        simp only [List.length_cons] at h2 ⊢
        omega

theorem splitOnDotGetLast (l : List Char) :
    (splitOnDot l).getLast?.getD [] = lastSeg l := by
  induction l with
  | nil => rfl
  | cons c rest ih =>
    by_cases hm : '.' ∈ rest
    · rw [lastSegConsOfMem c rest hm]
      unfold splitOnDot
      have h2 := splitOnDotTwoLe rest hm
      by_cases hc : c = '.'
      · rw [if_pos hc]
        cases hs : splitOnDot rest with
        | nil => exact absurd hs (splitOnDotNeNil rest)
        | cons s ss =>
          rw [hs] at ih
          rw [List.getLast?_cons_cons]
          exact ih
      · rw [if_neg hc]
        cases hs : splitOnDot rest with
        | nil => exact absurd hs (splitOnDotNeNil rest)
        | cons s ss =>
          rw [hs] at ih h2
          cases ss with
          | nil => simp at h2
          | cons s2 ss2 =>
            rw [List.getLast?_cons_cons]
            rw [List.getLast?_cons_cons] at ih
            exact ih
    · rw [lastSegConsOfNotMem c rest hm]
      unfold splitOnDot
      rw [splitOnDotOfNotMem rest hm]
      by_cases hc : c = '.'
      · rw [if_pos hc, if_pos hc]
        rw [List.getLast?_cons_cons]
        rfl
      · rw [if_neg hc, if_neg hc]
        rfl

theorem getExtensionEqAmendedSuffix (filename : String) :
    getExtension filename = amendedSuffix filename := by
  unfold getExtension amendedSuffix
  by_cases h : filename = ""
  · rw [if_pos h, if_pos h]
  · rw [if_neg h, if_neg h, splitOnDotGetLast]

theorem containsEqInArrayable (a : Arrayable String) (v : String) :
    (arrayify a).contains v = inArrayable a v := by
  cases a with
  | single s =>
    show List.elem v [s] = decide (s = v)
    rw [List.elem_eq_mem, decide_eq_decide]
    constructor
    · intro h
      exact (List.mem_singleton.mp h).symm
    · intro h
      exact List.mem_singleton.mpr h.symm
  | many l =>
    show List.elem v l = l.any (fun item => decide (item = v))
    rw [List.elem_eq_mem]
    rcases h : l.any (fun item => decide (item = v)) with _ | _
    · simp only [decide_eq_false_iff_not]
      intro hm
      have ht : l.any (fun item => decide (item = v)) = true :=
        List.any_eq_true.mpr ⟨v, hm, by simp⟩
      rw [h] at ht
      cases ht
    · rcases List.any_eq_true.mp h with ⟨x, hx, hxe⟩
      simp only [decide_eq_true_eq] at hxe
      subst hxe
      simp [hx]

theorem foldlAppendEq {α : Type} (ls : List (List α)) (a : List α) :
    ls.foldl (fun x y => x ++ y) a = a ++ ls.flatten := by
  induction ls generalizing a with
  | nil => simp
  | cons x ls ih =>
    rw [List.foldl_cons, ih, List.flatten_cons, List.append_assoc]

theorem lintMergeEqFlatten (returns : List (Option (List LintFinding))) :
    LintHelperMerge returns = (returns.filterMap id).flatten := by
  unfold LintHelperMerge
  rw [foldlAppendEq]
  rfl

theorem hintMergeEq (returns : List (Option HintResult)) (h : returns.filterMap id ≠ []) :
    HintHelperMerge returns = Except.ok
      { list := ((returns.filterMap id).map (fun r => r.list)).flatten
        fromPos := ((returns.filterMap id).head h).fromPos
        toPos := ((returns.filterMap id).head h).toPos } := by
  unfold HintHelperMerge
  revert h
  rcases hf : returns.filterMap id with _ | ⟨r, t⟩
  · intro h
    exact absurd rfl h
  · intro h
    show Except.ok _ = _
    rw [foldlAppendEq, List.nil_append]
    rfl

theorem assocLookupPush {α : Type} (m : List (String × List α)) (key : String) (v : α)
    (k : String) :
    assocLookup (assocPush m key v) k =
      assocLookup m k ++ (if key = k then [v] else []) := by
  induction m with
  | nil =>
    show (if key = k then [v] else []) = [] ++ (if key = k then [v] else [])
    rw [List.nil_append]
  | cons e rest ih =>
    rcases e with ⟨k0, l⟩
    by_cases h0 : k0 = key
    · subst h0
      by_cases hk : k0 = k
      · subst hk
        simp [assocPush, assocLookup]
      · simp [assocPush, assocLookup, hk]
    · by_cases hk : k0 = k
      · subst hk
        have hkey : ¬ key = k0 := fun e => h0 e.symm
        simp [assocPush, assocLookup, h0, hkey]
      · simp [assocPush, assocLookup, h0, hk, ih]

theorem lookupGroupsPush {ρ σ : Type} (st : List (HelperGroup ρ σ)) (t0 : HelperType)
    (ft0 : String) (w : Option (Wrapped ρ σ)) (t : HelperType) (ft : String) :
    lookupHelpers (groupsPush st t0 ft0 w) t ft =
      lookupHelpers st t ft ++ (if t0 = t ∧ ft0 = ft then [w] else []) := by
  induction st with
  | nil =>
    by_cases ht : t0 = t
    · by_cases hf : ft0 = ft
      · simp [groupsPush, lookupHelpers, lookupGroup, assocLookup, ht, hf]
      · simp [groupsPush, lookupHelpers, lookupGroup, assocLookup, ht, hf]
    · simp [groupsPush, lookupHelpers, lookupGroup, assocLookup, ht]
  | cons g rest ih =>
    rcases g with ⟨gt, gh⟩
    by_cases hg : gt = t0
    · subst hg
      by_cases hgt : gt = t
      · subst hgt
        by_cases hf : ft0 = ft
        · subst hf
          simp [groupsPush, lookupHelpers, lookupGroup, assocLookupPush]
        · simp [groupsPush, lookupHelpers, lookupGroup, assocLookupPush, hf]
      · simp [groupsPush, lookupHelpers, lookupGroup, hgt]
    · by_cases hgt : gt = t
      · subst hgt
        have hnt : ¬ t0 = gt := fun e => hg e.symm
        simp [groupsPush, lookupHelpers, lookupGroup, hg, hnt]
      · have ihx := ih
        simp only [lookupHelpers, lookupGroup] at ihx ⊢
        simp [groupsPush, lookupGroup, hg, hgt, ihx]

theorem lookupFoldl {ρ σ : Type} (pairs : List (EditorExtension ρ σ × Helper ρ σ))
    (st : List (HelperGroup ρ σ)) (t : HelperType) (ft : String) :
    lookupHelpers (pairs.foldl groupStep st) t ft =
      lookupHelpers st t ft ++
        pairs.filterMap (fun eh =>
          if eh.2.type = t ∧ eh.2.fileType = ft then
            some (createWrapperFunction eh.1 eh.2.callback)
          else none) := by
  induction pairs generalizing st with
  | nil => simp
  | cons p ps ih =>
    rw [List.foldl_cons, ih]
    unfold groupStep
    rw [lookupGroupsPush]
    rw [List.filterMap_cons]
    by_cases hc : p.2.type = t ∧ p.2.fileType = ft
    · rw [if_pos hc, if_pos hc, List.append_assoc]
      rfl
    · rw [if_neg hc, if_neg hc, List.append_nil]

theorem applyExtStepSkipped {ρ σ : Type} (filename : String) (fileExt : Option String)
    (acc : List String × Bool) (extension : EditorExtension ρ σ)
    (h : includeExt extension filename fileExt = false) :
    applyExtStep filename fileExt acc extension = acc := by
  unfold applyExtStep
  rw [h]
  rfl

theorem applyExtStepIncluded {ρ σ : Type} (filename : String) (fileExt : Option String)
    (acc : List String × Bool) (extension : EditorExtension ρ σ)
    (h : includeExt extension filename fileExt = true) :
    applyExtStep filename fileExt acc extension =
      (acc.1 ++ declaredGuttersAmended extension,
       acc.2 || decide (extension.spellCheck = some true)) := by
  unfold applyExtStep
  rw [h]
  show (_, _) = _
  unfold declaredGuttersAmended
  rcases hg : extension.gutters with _ | g
  · rcases hs : extension.spellCheck with _ | b
    · simp [hs]
    · cases b <;> simp [hs]
  · rcases hs : extension.spellCheck with _ | b
    · cases ht : truthyA g <;> simp [hs, ht]
    · cases ht : truthyA g <;> cases b <;> simp [hs, ht]

theorem applyExtLoop {ρ σ : Type} (extensions : List (EditorExtension ρ σ))
    (filename : String) (fileExt : Option String) (acc : List String × Bool) :
    extensions.foldl (applyExtStep filename fileExt) acc =
      (acc.1 ++ (extensions.filter
          (fun e => includeExt e filename fileExt)).flatMap declaredGuttersAmended,
       acc.2 || extensions.any
          (fun e => includeExt e filename fileExt && decide (e.spellCheck = some true))) := by
  induction extensions generalizing acc with
  | nil => simp
  | cons e rest ih =>
    rw [List.foldl_cons, ih]
    cases hin : includeExt e filename fileExt with
    | false =>
      rw [applyExtStepSkipped filename fileExt acc e hin]
      simp [List.filter_cons, hin]
    | true =>
      rw [applyExtStepIncluded filename fileExt acc e hin]
      simp only [List.filter_cons, hin, if_true, List.any_cons, Bool.true_and, Prod.mk.injEq]
      exact ⟨by rw [List.flatMap_cons, List.append_assoc], by rw [Bool.or_assoc]⟩

theorem wrapperExtBranchSpec {ρ σ : Type} (e : EditorExtension ρ σ) (func : String → ρ → σ)
    (w : Wrapped ρ σ) (h : wrapperExtBranch e func = some w) (fname : String) (args : ρ) :
    w fname args = if wrapperCondExt e.extension fname then some (func fname args) else none := by
  rcases e with ⟨fn, ex, g, hp, s⟩
  rcases ex with _ | exv
  · exact Option.noConfusion h
  · dsimp only [wrapperExtBranch] at h
    dsimp only [wrapperCondExt]
    by_cases ht : truthyA exv = true
    · rw [if_pos ht] at h
      rw [if_pos ht]
      have hw := Option.some.inj h
      subst hw
      dsimp only
      rcases hg : getExtension fname with _ | suffix
      · simp [hg]
      · simp only [hg]
        rw [containsEqInArrayable]
    · rw [if_neg ht] at h
      exact Option.noConfusion h

/-- Claim C1: the claim states that a malformed extension (helpers declared,
neither `fileName` nor `extension` set) leaves the host uncrashed and the
dispatcher exception-free.  On the code, `createWrapperFunction` returns
`undefined` for such an extension, the `undefined` wrapper is pushed into the
registered group, and the dispatcher for that `(kind, fileType)` key throws a
`TypeError` when invoked: this theorem evaluates the model at that failing
input. -/
theorem claim_C1_dispatcher_throws :
    lookupHelpers (appendHelpersGrouping [badExtC1]) HelperType.lint "python" = [none]
    ∧ dispatcherRun (lookupHelpers (appendHelpersGrouping [badExtC1]) HelperType.lint "python")
        LintHelperMerge "main.py" () = Except.error JsError.typeError :=
  ⟨rfl, rfl⟩

/-- Claim C2 counterexample: the claim asserts `getExtension "" = ""`, but the
source guard `if (!filename) return;` makes `getExtension ""` return
`undefined` (modelled `none`), not the empty string. -/
theorem claim_C2_counterexample :
    getExtension "" = none ∧ getExtension "" ≠ some "" := by
  exact ⟨rfl, by decide⟩

/-- Claim C2 amended: the first two specified equations hold
(`getExtension "main.test.py" = "py"`, `getExtension "Makefile" = "makefile"`),
and `getExtension ""` returns `undefined` (no value) rather than the empty
string. -/
theorem claim_C2_amended :
    getExtension "main.test.py" = some "py"
    ∧ getExtension "Makefile" = some "makefile"
    ∧ getExtension "" = none := by
  refine ⟨by decide, by decide, rfl⟩

/-- Claim C3 counterexample: with the claim's suffix definition (empty string
when the filename has no dot), the extension `{extension: "makefile"}` would
not apply to the filename `"Makefile"`; the applicator does apply it, because
`getExtension` lower-cases the whole dotless name. -/
theorem claim_C3_counterexample :
    matcherCond extC3 "Makefile" = true ∧ specMatchC3 extC3 "Makefile" = false := by
  exact ⟨by decide, by decide⟩

/-- Claim C3 amended: the applicator's applicability test matches by exact
filename when `fileName` is set; else, when `extension` is set, by comparing
the declared extensions with the file's suffix, where the suffix is the
longest dot-free tail of the name lower-cased (the whole name when it has no
dot) and the empty filename has no suffix and matches nothing; when neither
field is set the extension never applies. -/
theorem claim_C3_amended : ∀ {ρ σ : Type} (e : EditorExtension ρ σ) (filename : String),
    matcherCond e filename = amendedMatchC3 e filename := by
  intro ρ σ e filename
  rcases e with ⟨fn, ex, g, hp, s⟩
  unfold matcherCond includeExt amendedMatchC3
  rw [getExtensionEqAmendedSuffix]

/-- Claim C4: the hint merger, on any result list with at least one
non-sentinel entry, returns the concatenation of the contributing `list`
fields in callback order with the `from`/`to` positions of the first
contributing result; with exactly one contributing result it returns that
result unchanged. -/
theorem claim_C4_hint_merge :
    (∀ (returns : List (Option HintResult)) (h : returns.filterMap id ≠ []),
      HintHelperMerge returns = Except.ok
        { list := ((returns.filterMap id).map (fun r => r.list)).flatten
          fromPos := ((returns.filterMap id).head h).fromPos
          toPos := ((returns.filterMap id).head h).toPos })
    ∧ (∀ r : HintResult, HintHelperMerge [some r] = Except.ok r) := by
  refine ⟨hintMergeEq, fun r => ?_⟩
  rw [hintMergeEq [some r] (by simp)]
  simp

/-- Claim C4 witness: the spec's identity example, one contributing result
`{list:["a","b"], from:(0,0), to:(0,2)}`. -/
theorem claim_C4_witness :
    ([some hintR1].filterMap id ≠ []) ∧ HintHelperMerge [some hintR1] = Except.ok hintR1 := by
  refine ⟨by decide, ?_⟩
  rw [claim_C4_hint_merge.1 [some hintR1] (by decide)]
  rfl

/-- Claim C5: the helper registry groups, under every `(kind, fileType)` key,
exactly one wrapped callback per helper declared with that kind and fileType,
in extension-list order and, within an extension, helper-list order. -/
theorem claim_C5_registry : ∀ {ρ σ : Type} (extensions : List (EditorExtension ρ σ))
    (t : HelperType) (ft : String),
    lookupHelpers (appendHelpersGrouping extensions) t ft =
      (declaredHelpers extensions).filterMap (fun eh =>
        if eh.2.type = t ∧ eh.2.fileType = ft then
          some (createWrapperFunction eh.1 eh.2.callback)
        else none) := by
  intro ρ σ extensions t ft
  unfold appendHelpersGrouping
  rw [lookupFoldl]
  rfl

/-- Claim C6: the lint merger returns the concatenation, in callback order, of
the non-sentinel finding lists; when every entry is the sentinel it returns
the empty findings list rather than an error. -/
theorem claim_C6_lint_merge :
    (∀ returns : List (Option (List LintFinding)),
      LintHelperMerge returns = (returns.filterMap id).flatten)
    ∧ (∀ returns : List (Option (List LintFinding)),
      (∀ r ∈ returns, r = none) → LintHelperMerge returns = []) := by
  refine ⟨lintMergeEqFlatten, fun returns h => ?_⟩
  rw [lintMergeEqFlatten]
  have hnil : List.filterMap id returns = [] :=
    List.filterMap_eq_nil_iff.mpr (fun a ha => h a ha)
  rw [hnil]
  rfl

/-- Claim C6 witness: two sentinel entries merge to the empty findings
list. -/
theorem claim_C6_witness :
    LintHelperMerge [none, none] = [] :=
  claim_C6_lint_merge.2 [none, none] (by decide)

/-- Claim C7 counterexample: for the extension
`{fileName: "", extension: "py"}` and the current filename `"x.py"`, the
Extension Matcher condition (as the applicator evaluates it) fails, yet the
wrapped callback runs the underlying callback and returns its result: the
invocation-time guard tests JS truthiness of `fileName`, not presence. -/
theorem claim_C7_counterexample :
    createWrapperFunction extC7c funcC7c = some wC7c
    ∧ matcherCond extC7c "x.py" = false
    ∧ wC7c "x.py" () = some 7 := by
  refine ⟨rfl, by decide, by decide⟩

/-- Claim C7 amended: every wrapped callback produced by `appendHelpers`,
when invoked, returns the no-result sentinel when the editor's current
`filename` option fails the wrapper's guard and exactly the underlying
callback's result otherwise, where the guard re-evaluates the owning
extension's `fileName`/`extension` matching condition treating an
empty-string field as absent (the `fileName` branch is used only when
`fileName` is truthy, else the `extension` branch only when `extension` is
truthy). -/
theorem claim_C7_amended : ∀ {ρ σ : Type} (e : EditorExtension ρ σ)
    (func : String → ρ → σ) (w : Wrapped ρ σ),
    createWrapperFunction e func = some w →
    ∀ (fname : String) (args : ρ),
      w fname args = if wrapperCond e fname then some (func fname args) else none := by
  intro ρ σ e func w h fname args
  rcases e with ⟨fn, ex, g, hp, s⟩
  rcases fn with _ | fnv
  · dsimp only [createWrapperFunction] at h
    dsimp only [wrapperCond]
    exact wrapperExtBranchSpec ⟨none, ex, g, hp, s⟩ func w h fname args
  · dsimp only [createWrapperFunction] at h
    dsimp only [wrapperCond]
    by_cases ht : truthyA fnv = true
    · rw [if_pos ht] at h
      rw [if_pos ht]
      have hw := Option.some.inj h
      subst hw
      dsimp only
      rw [containsEqInArrayable]
    · rw [if_neg ht] at h
      rw [if_neg ht]
      exact wrapperExtBranchSpec ⟨some fnv, ex, g, hp, s⟩ func w h fname args

/-- Claim C7 witness: the wrapper of an extension scoped to the exact
filename `"notes.txt"` runs the callback for that filename and returns the
sentinel for any other. -/
theorem claim_C7_witness :
    createWrapperFunction extC7w funcC7 = some wC7
    ∧ wC7 "notes.txt" () = some 42
    ∧ wC7 "other.txt" () = none := by
  refine ⟨rfl, ?_, ?_⟩
  · rw [claim_C7_amended extC7w funcC7 wC7 rfl "notes.txt" ()]
    decide
  · rw [claim_C7_amended extC7w funcC7 wC7 rfl "other.txt" ()]
    decide

/-- Claim C8 counterexample: an applicable extension declaring the empty
string as its gutter identifier is skipped by the applicator (JS truthiness of
the `gutters` field), so the editor's `gutters` option is empty while the
claim's concatenation of declared identifiers is `[""]`. -/
theorem claim_C8_counterexample :
    (appendExtensions edC8 [extC8a] "x.py").gutters = []
    ∧ gutterConcatClaim [extC8a] "x.py" = [""] := by
  exact ⟨by decide, by decide⟩

/-- Claim C8 amended: after `appendExtensions`, the `gutters` option is the
concatenation, in extension-list order with duplicates allowed, of the gutter
identifiers declared by the applicable extensions whose `gutters` field is
truthy (a `gutters` field that is the empty string contributes nothing), and
the `spellcheck` option is true iff at least one applicable extension sets
`spellCheck: true`. -/
theorem claim_C8_amended : ∀ {ρ σ : Type} (editor : EditorOptions)
    (extensions : List (EditorExtension ρ σ)) (filename : String),
    (appendExtensions editor extensions filename).gutters =
      gutterConcatAmended extensions filename
    ∧ ((appendExtensions editor extensions filename).spellcheck = true ↔
        ∃ e ∈ extensions, matcherCond e filename = true ∧ e.spellCheck = some true) := by
  intro ρ σ editor extensions filename
  unfold appendExtensions
  dsimp only
  rw [applyExtLoop]
  dsimp only
  constructor
  · rw [List.nil_append]
    rfl
  · rw [Bool.false_or]
    rw [List.any_eq_true]
    constructor
    · rintro ⟨e, he, hb⟩
      rw [Bool.and_eq_true] at hb
      exact ⟨e, he, hb.1, of_decide_eq_true hb.2⟩
    · rintro ⟨e, he, h1, h2⟩
      refine ⟨e, he, ?_⟩
      rw [Bool.and_eq_true]
      exact ⟨h1, decide_eq_true h2⟩

/-- Claim C9: the lint merger is total (its value is the flattening of the
non-sentinel entries, on every input, including the all-sentinel one), and
the hint merger produces a non-error result on every input that keeps at
least one entry after discarding the sentinels. -/
theorem claim_C9_mergers_total :
    (∀ returns : List (Option (List LintFinding)),
      LintHelperMerge returns = (returns.filterMap id).flatten)
    ∧ (∀ returns : List (Option HintResult),
      returns.filterMap id ≠ [] → (HintHelperMerge returns).isOk = true) := by
  refine ⟨lintMergeEqFlatten, fun returns h => ?_⟩
  rw [hintMergeEq returns h]
  rfl

/-- Claim C9 witness: a singleton contributing hint list is merged without an
error. -/
theorem claim_C9_witness :
    ([some hintR9].filterMap id ≠ []) ∧ (HintHelperMerge [some hintR9]).isOk = true :=
  ⟨by decide, claim_C9_mergers_total.2 [some hintR9] (by decide)⟩

/-- Claim C10 counterexample: for an extension setting both fields with
`fileName` equal to the empty string, the wrapper's guard is NOT decided by
the `fileName` condition: the filename `"x.py"` fails the `fileName`
condition yet the wrapper runs the underlying callback, because the guard
falls through to the `extension` branch. -/
theorem claim_C10_counterexample :
    inArrayable (Arrayable.single "") "x.py" = false
    ∧ createWrapperFunction extC10c funcC10c = some wC10c
    ∧ wC10c "x.py" () = some 3 := by
  refine ⟨by decide, rfl, by decide⟩

/-- Claim C10 amended: for an extension that sets both `fileName` and
`extension`, the applicator's applicability test is always decided solely by
the `fileName` condition, and the wrapper's invocation-time guard is decided
solely by the `fileName` condition whenever `fileName` is truthy (a non-empty
string or an array); a `fileName` that is the empty string makes the wrapper
fall through to the `extension` branch instead. -/
theorem claim_C10_amended :
    (∀ {ρ σ : Type} (e : EditorExtension ρ σ) (names : Arrayable String) (filename : String),
      e.fileName = some names → matcherCond e filename = inArrayable names filename)
    ∧ (∀ {ρ σ : Type} (e : EditorExtension ρ σ) (names : Arrayable String)
        (func : String → ρ → σ) (w : Wrapped ρ σ),
      e.fileName = some names → truthyA names = true →
      createWrapperFunction e func = some w →
      ∀ (fname : String) (args : ρ),
        w fname args = if inArrayable names fname then some (func fname args) else none) := by
  constructor
  · intro ρ σ e names filename h
    rcases e with ⟨fn, ex, g, hp, s⟩
    cases h
    rfl
  · intro ρ σ e names func w h ht hw fname args
    rcases e with ⟨fn, ex, g, hp, s⟩
    cases h
    dsimp only [createWrapperFunction] at hw
    rw [if_pos ht] at hw
    have hww := Option.some.inj hw
    subst hww
    dsimp only
    rw [containsEqInArrayable]

/-- Claim C10 witness: an extension with `fileName: ["m.py"]` and
`extension: "py"`; the filename `"z.py"` has the matching suffix `py`, yet
both the applicator's test and the wrapper reject it because only the
`fileName` condition counts. -/
theorem claim_C10_witness :
    matcherCond extC10w "z.py" = false
    ∧ createWrapperFunction extC10w funcC10 = some wC10
    ∧ wC10 "z.py" () = none := by
  refine ⟨?_, rfl, ?_⟩
  · rw [claim_C10_amended.1 extC10w (Arrayable.many ["m.py"]) "z.py" rfl]
    decide
  · rw [claim_C10_amended.2 extC10w (Arrayable.many ["m.py"]) funcC10 wC10 rfl rfl rfl "z.py" ()]
    decide
